import Mathlib

/-!
Verification of the openwhoop repository's packet codec, historical-data
decoders, sync-session record handling, and the sleep/activity/time-math
algorithms, against the natural-language specification.

Bytes are modelled as `Nat` (with explicit `% 256` / `% 2 ^ 32` wherever the
Rust source performs wrapping machine arithmetic), byte buffers as `List Nat`,
fallible Rust functions as `Except WhoopError _`, and code that can hit a
Rust panic as a three-valued result type with a distinguished `panic` outcome.
Signed 64-bit quantities (`chrono` durations, timestamps) are modelled as
`Int`; Rust's `i64` division truncates toward zero, which is `Int.tdiv`.
-/

/-- Combine two bytes little-endian, as `u16::from_le_bytes`. -/
def u16leVal (b0 b1 : Nat) : Nat := b0 + 256 * b1

/-- The little-endian byte encoding of a `u16` value, as `u16::to_le_bytes`. -/
def u16leBytes (n : Nat) : List Nat := [n % 256, n / 256 % 256]

/-- Combine a four-byte list little-endian, as `u32::from_le_bytes`.
The default arm is never reached: every caller passes exactly four bytes. -/
def u32leVal (l : List Nat) : Nat :=
  match l with
  | [b0, b1, b2, b3] => b0 + 256 * b1 + 65536 * b2 + 16777216 * b3
  | _ => 0

/-- The little-endian byte encoding of a `u32` value, as `u32::to_le_bytes`. -/
def u32leBytes (n : Nat) : List Nat :=
  [n % 256, n / 256 % 256, n / 65536 % 256, n / 16777216 % 256]

/-- The structured decoder error type.  `openwhoop-codec/src/error.rs` is
not in the source tree; the variants are those of `whoop/src/error.rs`
plus `InvalidRRCount`, which the codec's `whoop_data.rs` returns at its
two RR-count checks. -/
inductive WhoopError where
  | InvalidRRCount
  | PacketTooShort
  | InvalidSof
  | InvalidHeaderCrc8
  | InvalidPacketLength
  | InvalidDataCrc32
  | InvalidIndexError
  | InvalidPacketType (b : Nat)
  | InvalidData
  | InvalidMetadataType (b : Nat)
  | InvalidCommandType (b : Nat)
  | InvalidConsoleLog
  | Unimplemented
  deriving DecidableEq, Repr

/-- `constants.rs`: the BLE packet type tag. -/
inductive PacketType where
  | Command
  | CommandResponse
  | RealtimeData
  | HistoricalData
  | RealtimeRawData
  | Event
  | Metadata
  | ConsoleLogs
  | RealtimeImuDataStream
  | HistoricalImuDataStream
  deriving DecidableEq, Repr

/-- `PacketType::as_u8`: the discriminant values from `constants.rs`. -/
def PacketType.asU8 : PacketType → Nat
  | .Command => 35
  | .CommandResponse => 36
  | .RealtimeData => 40
  | .HistoricalData => 47
  | .RealtimeRawData => 43
  | .Event => 48
  | .Metadata => 49
  | .ConsoleLogs => 50
  | .RealtimeImuDataStream => 51
  | .HistoricalImuDataStream => 52

/-- `PacketType::from_u8`. -/
def PacketType.fromU8 (value : Nat) : Option PacketType :=
  match value with
  | 35 => some .Command
  | 36 => some .CommandResponse
  | 40 => some .RealtimeData
  | 47 => some .HistoricalData
  | 43 => some .RealtimeRawData
  | 48 => some .Event
  | 49 => some .Metadata
  | 50 => some .ConsoleLogs
  | 51 => some .RealtimeImuDataStream
  | 52 => some .HistoricalImuDataStream
  | _ => none

/-- `packet.rs`: a decoded WHOOP packet.  The source's `partial` flag is
named `truncated` here; it records that the buffer was shorter than the
length declared in the frame header. -/
structure WhoopPacket where
  packetType : PacketType
  seq : Nat
  cmd : Nat
  data : List Nat
  truncated : Bool
  size : Nat
  deriving DecidableEq, Repr

/-- `WhoopPacket::new`. -/
def WhoopPacket.new (packetType : PacketType) (seq cmd : Nat) (data : List Nat) :
    WhoopPacket :=
  ⟨packetType, seq, cmd, data, false, data.length⟩

/-- One shift-and-xor round of the CRC8 inner loop: u8 `crc << 1` wraps
mod 256 before the conditional xor with the 0x07 polynomial. -/
def crc8Step (c : Nat) : Nat :=
  if c &&& 0x80 ≠ 0 then (c * 2) % 256 ^^^ 0x07 else (c * 2) % 256

/-- `WhoopPacket::crc8`: xor in each byte, then run eight shift rounds. -/
def crc8 (data : List Nat) : Nat :=
  data.foldl (fun c b => crc8Step^[8] (c ^^^ b)) 0

/-- One shift-and-xor round of the CRC32 inner loop (u32 `crc >> 1`,
conditionally xored with the reflected polynomial). -/
def crc32Step (c : Nat) : Nat :=
  if c &&& 1 ≠ 0 then c / 2 ^^^ 0xEDB88320 else c / 2

/-- `WhoopPacket::crc32`: init 0xFFFFFFFF, eight rounds per byte, final
complement (u32 `!crc`, i.e. xor with 0xFFFFFFFF). -/
def crc32 (data : List Nat) : Nat :=
  0xFFFFFFFF ^^^ data.foldl (fun c b => crc32Step^[8] (c ^^^ b)) 0xFFFFFFFF

/-- `WhoopPacket::create_packet`: type, sequence and command bytes followed
by the payload. -/
def WhoopPacket.createPacket (p : WhoopPacket) : List Nat :=
  p.packetType.asU8 :: p.seq :: p.cmd :: p.data

/-- `WhoopPacket::framed_packet`.  The declared length is `pkt.len() as u16
+ 4`: the cast truncates mod 2^16 and the u16 addition wraps (release
semantics; a debug build would abort on the add only when the payload is
within 4 bytes of the 65536 wrap, which the round-trip theorem excludes). -/
def WhoopPacket.framedPacket (p : WhoopPacket) : List Nat :=
  let pkt := p.createPacket
  let length := (pkt.length % 65536 + 4) % 65536
  let lengthBuffer := u16leBytes length
  let crc8Value := crc8 lengthBuffer
  let crc32Value := crc32 pkt
  0xAA :: (lengthBuffer ++ (crc8Value :: (pkt ++ u32leBytes crc32Value)))

/-- The final three `pop_front` calls of `WhoopPacket::from_data`: pop the
type byte (rejecting unknown discriminants), the sequence byte and the
command byte; the remaining bytes are the payload. -/
def WhoopPacket.parseBody (length : Nat) (truncated : Bool) (buf : List Nat) :
    Except WhoopError WhoopPacket :=
  match buf with
  | tb :: sq :: cm :: payload =>
    match PacketType.fromU8 tb with
    | none => .error (.InvalidPacketType tb)
    | some pt => .ok ⟨pt, sq, cm, payload, truncated, length⟩
  | _ => .error .InvalidIndexError

/-- The body of `WhoopPacket::from_data` after the four header bytes have
been popped off: check SOF, check the header CRC8, decode the declared
length, and — unless the frame is partial — strip the trailing CRC32
(`read_end::<4>`) and check it before popping type/seq/cmd. -/
def WhoopPacket.parseAfterHeader (sof l0 l1 expectedCrc8 : Nat) (rest : List Nat) :
    Except WhoopError WhoopPacket :=
  if sof ≠ 0xAA then .error .InvalidSof
  else if crc8 [l0, l1] ≠ expectedCrc8 then .error .InvalidHeaderCrc8
  else if u16leVal l0 l1 < 8 then .error .InvalidPacketLength
  else if rest.length < u16leVal l0 l1 then
    WhoopPacket.parseBody (u16leVal l0 l1) true rest
  else if rest.length < 4 then .error .InvalidIndexError
  else if crc32 (rest.take (rest.length - 4)) ≠ u32leVal (rest.drop (rest.length - 4)) then
    .error .InvalidDataCrc32
  else WhoopPacket.parseBody (u16leVal l0 l1) false (rest.take (rest.length - 4))

/-- `WhoopPacket::from_data`.  The catch-all arm is unreachable because of
the length check, but keeps the function total exactly like the source. -/
def WhoopPacket.fromData (data : List Nat) : Except WhoopError WhoopPacket :=
  if data.length < 8 then .error .PacketTooShort
  else
    match data with
    | [] | [_] | [_, _] | [_, _, _] => .error .PacketTooShort
    | sof :: l0 :: l1 :: expectedCrc8 :: rest =>
      WhoopPacket.parseAfterHeader sof l0 l1 expectedCrc8 rest

theorem WhoopPacket.fromData_cons (sof l0 l1 e : Nat) (rest : List Nat) :
    WhoopPacket.fromData (sof :: l0 :: l1 :: e :: rest) =
      if (sof :: l0 :: l1 :: e :: rest).length < 8 then .error .PacketTooShort
      else WhoopPacket.parseAfterHeader sof l0 l1 e rest := rfl

theorem WhoopPacket.parseBody_asU8 (length : Nat) (t : Bool) (pt : PacketType)
    (sq cm : Nat) (payload : List Nat) :
    WhoopPacket.parseBody length t (pt.asU8 :: sq :: cm :: payload)
      = .ok ⟨pt, sq, cm, payload, t, length⟩ := by
  cases pt <;> rfl

deriving instance DecidableEq for Except

theorem u32leVal_u32leBytes (n : Nat) (h : n < 2 ^ 32) : u32leVal (u32leBytes n) = n := by
  simp only [u32leVal, u32leBytes]
  omega

theorem crc32Step_lt (c : Nat) (h : c < 2 ^ 32) : crc32Step c < 2 ^ 32 := by
  unfold crc32Step
  have hdiv : c / 2 < 2 ^ 32 := lt_of_le_of_lt (Nat.div_le_self c 2) h
  split
  · exact Nat.xor_lt_two_pow hdiv (by norm_num)
  · exact hdiv

theorem crc32Step_iter_lt (k c : Nat) (h : c < 2 ^ 32) : crc32Step^[k] c < 2 ^ 32 := by
  induction k generalizing c with
  | zero => simpa using h
  | succ k ih =>
    rw [Function.iterate_succ_apply]
    exact ih _ (crc32Step_lt c h)

theorem crc32_lt (l : List Nat) (hl : ∀ b ∈ l, b < 256) : crc32 l < 2 ^ 32 := by
  unfold crc32
  have hfold : ∀ (l' : List Nat) (c : Nat), (∀ b ∈ l', b < 256) → c < 2 ^ 32 →
      l'.foldl (fun c b => crc32Step^[8] (c ^^^ b)) c < 2 ^ 32 := by
    intro l'
    induction l' with
    | nil => intro c _ hc; simpa using hc
    | cons b bs ih =>
      intro c hmem hc
      rw [List.foldl_cons]
      refine ih _ (fun x hx => hmem x (List.mem_cons_of_mem _ hx)) ?_
      refine crc32Step_iter_lt 8 _ (Nat.xor_lt_two_pow hc ?_)
      exact lt_trans (hmem b (List.mem_cons_self b bs)) (by norm_num)
  exact Nat.xor_lt_two_pow (by norm_num) (hfold l 0xFFFFFFFF hl (by norm_num))

theorem PacketType.fromU8_asU8 (pt : PacketType) : PacketType.fromU8 pt.asU8 = some pt := by
  cases pt <;> rfl

theorem PacketType.asU8_lt (pt : PacketType) : pt.asU8 < 256 := by
  cases pt <;> decide

/-- General round-trip law for `framed_packet`/`from_data`: decoding a
framed packet recovers the packet class, sequence byte, command byte and
payload, clears the `partial` flag, and sets `size` to the declared frame
length `payload.len + 7` (not the `payload.len` that `WhoopPacket::new`
stored). -/
theorem fromData_framedPacket (pt : PacketType) (seq cmd : Nat) (payload : List Nat)
    (hseq : seq < 256) (hcmd : cmd < 256) (hbytes : ∀ b ∈ payload, b < 256)
    (hne : payload ≠ []) (hlen : payload.length + 7 ≤ 65535) :
    WhoopPacket.fromData (WhoopPacket.framedPacket (WhoopPacket.new pt seq cmd payload))
      = .ok ⟨pt, seq, cmd, payload, false, payload.length + 7⟩ := by
  have hplen : 1 ≤ payload.length := by
    cases payload with
    | nil => exact absurd rfl hne
    | cons a l => simp
  have hpktbytes : ∀ b ∈ pt.asU8 :: seq :: cmd :: payload, b < 256 := by
    intro b hb
    simp only [List.mem_cons] at hb
    rcases hb with rfl | rfl | rfl | hb
    · exact pt.asU8_lt
    · exact hseq
    · exact hcmd
    · exact hbytes _ hb
  set pkt : List Nat := pt.asU8 :: seq :: cmd :: payload with hpkt
  have hpktlen : pkt.length = payload.length + 3 := by simp [hpkt]
  have hcrc32lt : crc32 pkt < 2 ^ 32 := crc32_lt pkt hpktbytes
  have hmod2 : (pkt.length % 65536 + 4) % 65536 = payload.length + 7 := by
    rw [hpktlen, Nat.mod_eq_of_lt (by omega), Nat.mod_eq_of_lt (by omega)]
  have hframe : WhoopPacket.framedPacket (WhoopPacket.new pt seq cmd payload) =
      0xAA :: (payload.length + 7) % 256 :: (payload.length + 7) / 256 % 256 ::
        crc8 (u16leBytes (payload.length + 7)) :: (pkt ++ u32leBytes (crc32 pkt)) := by
    simp only [WhoopPacket.framedPacket, WhoopPacket.new, WhoopPacket.createPacket, hmod2]
    simp [u16leBytes, hpkt]
  rw [hframe]
  have hrestlen : (pkt ++ u32leBytes (crc32 pkt)).length = payload.length + 7 := by
    simp [hpktlen, u32leBytes]
  rw [WhoopPacket.fromData_cons]
  rw [if_neg (show ¬((0xAA :: (payload.length + 7) % 256 :: (payload.length + 7) / 256 % 256 ::
        crc8 (u16leBytes (payload.length + 7)) :: (pkt ++ u32leBytes (crc32 pkt))).length < 8) by
    simp only [List.length_cons, hrestlen]; omega)]
  unfold WhoopPacket.parseAfterHeader
  rw [if_neg (by norm_num : ¬((0xAA : Nat) ≠ 0xAA))]
  rw [if_neg (show ¬(crc8 [(payload.length + 7) % 256, (payload.length + 7) / 256 % 256]
        ≠ crc8 (u16leBytes (payload.length + 7))) by simp [u16leBytes])]
  have hval : u16leVal ((payload.length + 7) % 256) ((payload.length + 7) / 256 % 256)
      = payload.length + 7 := by
    unfold u16leVal; omega
  rw [hval]
  rw [if_neg (show ¬(payload.length + 7 < 8) by omega)]
  rw [if_neg (show ¬((pkt ++ u32leBytes (crc32 pkt)).length < payload.length + 7) by
    rw [hrestlen]; omega)]
  rw [if_neg (show ¬((pkt ++ u32leBytes (crc32 pkt)).length < 4) by rw [hrestlen]; omega)]
  have hlen4 : (pkt ++ u32leBytes (crc32 pkt)).length - 4 = pkt.length := by
    rw [hrestlen, hpktlen]; omega
  have htake : (pkt ++ u32leBytes (crc32 pkt)).take ((pkt ++ u32leBytes (crc32 pkt)).length - 4)
      = pkt := by rw [hlen4]; exact List.take_left pkt _
  have hdrop : (pkt ++ u32leBytes (crc32 pkt)).drop ((pkt ++ u32leBytes (crc32 pkt)).length - 4)
      = u32leBytes (crc32 pkt) := by rw [hlen4]; exact List.drop_left pkt _
  rw [htake, hdrop]
  rw [if_neg (show ¬(crc32 pkt ≠ u32leVal (u32leBytes (crc32 pkt))) by
    rw [u32leVal_u32leBytes _ hcrc32lt]; exact fun h => h rfl)]
  rw [hpkt, WhoopPacket.parseBody_asU8]


/-- C1: For every packet built with `WhoopPacket::new` from one of the six
decodable packet classes, any sequence byte, any command byte and any
non-empty payload (here additionally bounded so the u16 frame length does
not wrap), decoding the framed form succeeds and returns the original
packet class, sequence byte, command byte, payload and partial flag — but
the `size` field comes back as the declared frame length
`payload.len + 7`, not the `payload.len` stored by `WhoopPacket::new`. -/
theorem claim_C1_roundtrip (pt : PacketType)
    (hpt : pt ∈ [PacketType.Command, PacketType.CommandResponse, PacketType.HistoricalData,
      PacketType.Event, PacketType.Metadata, PacketType.ConsoleLogs])
    (seq cmd : Nat) (payload : List Nat) (hseq : seq < 256) (hcmd : cmd < 256)
    (hbytes : ∀ b ∈ payload, b < 256) (hne : payload ≠ [])
    (hlen : payload.length + 7 ≤ 65535) :
    WhoopPacket.fromData (WhoopPacket.framedPacket (WhoopPacket.new pt seq cmd payload))
      = .ok ⟨pt, seq, cmd, payload, false, payload.length + 7⟩ :=
  fromData_framedPacket pt seq cmd payload hseq hcmd hbytes hne hlen

theorem claim_C1_roundtrip_witness :
    WhoopPacket.fromData (WhoopPacket.framedPacket (WhoopPacket.new .Command 1 5 [1, 2, 3]))
      = .ok ⟨.Command, 1, 5, [1, 2, 3], false, 10⟩ :=
  claim_C1_roundtrip .Command (by decide) 1 5 [1, 2, 3] (by decide) (by decide)
    (by decide) (by decide) (by decide)

set_option maxRecDepth 10000 in
/-- C1 counterexample: decoding the framed form of the packet
`new(Command, seq 1, cmd 5, payload [1,2,3])` does not return a packet
equal to the original: the decoded `size` is 10 (the frame length) while
the original `size` is 3 (the payload length). -/
theorem claim_C1_counterexample :
    WhoopPacket.fromData (WhoopPacket.framedPacket (WhoopPacket.new .Command 1 5 [1, 2, 3]))
      ≠ .ok (WhoopPacket.new .Command 1 5 [1, 2, 3]) := by decide

/-- `whoop_data/history.rs`: DSP sensor fields of V12/V24 packets.  The
accelerometer gravity vector is three f32 values; their raw little-endian
u32 bit patterns are kept, since the decoder only copies them. -/
structure SensorData where
  ppgGreen : Nat
  ppgRedIr : Nat
  spo2Red : Nat
  spo2Ir : Nat
  skinTempRaw : Nat
  ambientLight : Nat
  ledDrive1 : Nat
  ledDrive2 : Nat
  respRateRaw : Nat
  signalQuality : Nat
  skinContact : Nat
  accelGravityBits : List Nat
  deriving DecidableEq, Repr

/-- `whoop_data/history.rs`: one IMU sample.  The source divides each raw
big-endian i16 by a constant f32 sensitivity (1875.0 for the
accelerometer, 15.0 for the gyroscope); the raw i16 values are kept here,
since that pure rescaling is not used by any claim. -/
structure ImuSample where
  accXRaw : Int
  accYRaw : Int
  accZRaw : Int
  gyrXRaw : Int
  gyrYRaw : Int
  gyrZRaw : Int
  deriving DecidableEq, Repr

/-- `whoop_data/history.rs`: a decoded historical reading.  `unix` is in
milliseconds (u64), `bpm` a u8, `rr` a list of u16 values, `activity` a
u32. -/
structure HistoryReading where
  unix : Nat
  bpm : Nat
  rr : List Nat
  activity : Nat
  imuData : List ImuSample
  sensorData : Option SensorData
  deriving DecidableEq, Repr

/-- `HistoryReading::is_valid`. -/
def HistoryReading.isValid (h : HistoryReading) : Bool := h.bpm > 0

/-- `constants.rs`: metadata packet subtype. -/
inductive MetadataType where
  | HistoryStart
  | HistoryEnd
  | HistoryComplete
  deriving DecidableEq, Repr

/-- `whoop_data.rs`: the decoded-record enum.  The `Event` payload is the
raw `CommandNumber` discriminant byte; the console-log and version-info
strings are kept abstract, since no claim depends on them. -/
inductive WhoopData where
  | HistoryReading (hr : HistoryReading)
  | HistoryMetadata (unix data : Nat) (cmd : MetadataType)
  | ConsoleLog (unix : Nat) (log : String)
  | RunAlarm (unix : Nat)
  | Event (unix : Nat) (event : Nat)
  | UnknownEvent (unix : Nat) (event : Nat)
  | VersionInfo (harvard boylston : String)
  deriving DecidableEq, Repr

/-- `BufferReader::pop_front` on `Vec<u8>`: remove and return the first
byte, or fail. -/
def popFront (l : List Nat) : Except WhoopError (Nat × List Nat) :=
  match l with
  | [] => .error .InvalidIndexError
  | b :: rest => .ok (b, rest)

/-- `BufferReader::read_u16_le`: drain two bytes and combine them. -/
def readU16 (l : List Nat) : Except WhoopError (Nat × List Nat) :=
  match l with
  | b0 :: b1 :: rest => .ok (u16leVal b0 b1, rest)
  | _ => .error .InvalidIndexError

/-- `BufferReader::read_u32_le`: drain four bytes and combine them. -/
def readU32 (l : List Nat) : Except WhoopError (Nat × List Nat) :=
  match l with
  | b0 :: b1 :: b2 :: b3 :: rest => .ok (u32leVal [b0, b1, b2, b3], rest)
  | _ => .error .InvalidIndexError

/-- A `let _ = packet.read::<N>();` whose `Result` is discarded: the bytes
are drained only when enough are available, and a failure is ignored,
leaving the buffer unchanged. -/
def skipIfAvailable (n : Nat) (l : List Nat) : List Nat :=
  if n ≤ l.length then l.drop n else l

/-- `WhoopData::parse_historical_packet_generic` (V7/V9/V18 layout): skip
4 sequence bytes, read unix seconds (u32 LE, scaled to milliseconds), skip
6 sub/flag/sensor bytes, read bpm and rr-count bytes, read four u16 LE RR
slots keeping the non-zero ones, require the surviving count to equal
rr-count, then read the u32 LE activity. -/
def parseHistoricalPacketGeneric (packet : List Nat) : Except WhoopError WhoopData := do
  let packet := skipIfAvailable 4 packet
  let (unixSecs, packet) ← readU32 packet
  let packet := skipIfAvailable 6 packet
  let (bpm, packet) ← popFront packet
  let (rrCount, packet) ← popFront packet
  let (s1, packet) ← readU16 packet
  let (s2, packet) ← readU16 packet
  let (s3, packet) ← readU16 packet
  let (s4, packet) ← readU16 packet
  let rr := [s1, s2, s3, s4].filter (· ≠ 0)
  if rr.length ≠ rrCount then .error .InvalidRRCount
  else do
    let (activity, _packet) ← readU32 packet
    .ok (.HistoryReading ⟨unixSecs * 1000, bpm, rr, activity, [], none⟩)

theorem skipIfAvailable_of_le (n : Nat) (l : List Nat) (h : n ≤ l.length) :
    skipIfAvailable n l = l.drop n := if_pos h

/-- Reduction of the generic historical parser on any payload of at least
28 bytes, exposing the byte layout: unix seconds at offset 4, bpm at 14,
rr-count at 15, four RR slots at 16–23, activity at 24–27. -/
theorem parseGeneric_eq (b0 b1 b2 b3 b4 b5 b6 b7 b8 b9 b10 b11 b12 b13 b14 b15
    b16 b17 b18 b19 b20 b21 b22 b23 b24 b25 b26 b27 : Nat) (rest : List Nat) :
    parseHistoricalPacketGeneric (b0 :: b1 :: b2 :: b3 :: b4 :: b5 :: b6 :: b7 :: b8 :: b9 ::
        b10 :: b11 :: b12 :: b13 :: b14 :: b15 :: b16 :: b17 :: b18 :: b19 :: b20 :: b21 ::
        b22 :: b23 :: b24 :: b25 :: b26 :: b27 :: rest) =
      if ([u16leVal b16 b17, u16leVal b18 b19, u16leVal b20 b21,
            u16leVal b22 b23].filter (· ≠ 0)).length ≠ b15 then
        .error .InvalidRRCount
      else
        .ok (.HistoryReading ⟨u32leVal [b4, b5, b6, b7] * 1000, b14,
          [u16leVal b16 b17, u16leVal b18 b19, u16leVal b20 b21,
            u16leVal b22 b23].filter (· ≠ 0),
          u32leVal [b24, b25, b26, b27], [], none⟩) := by
  have h4 : skipIfAvailable 4 (b0 :: b1 :: b2 :: b3 :: b4 :: b5 :: b6 :: b7 :: b8 :: b9 ::
      b10 :: b11 :: b12 :: b13 :: b14 :: b15 :: b16 :: b17 :: b18 :: b19 :: b20 :: b21 ::
      b22 :: b23 :: b24 :: b25 :: b26 :: b27 :: rest) =
      b4 :: b5 :: b6 :: b7 :: b8 :: b9 :: b10 :: b11 :: b12 :: b13 :: b14 :: b15 :: b16 ::
      b17 :: b18 :: b19 :: b20 :: b21 :: b22 :: b23 :: b24 :: b25 :: b26 :: b27 :: rest := by
    rw [skipIfAvailable_of_le _ _ (by simp)]
    rfl
  have h6 : skipIfAvailable 6 (b8 :: b9 :: b10 :: b11 :: b12 :: b13 :: b14 :: b15 :: b16 ::
      b17 :: b18 :: b19 :: b20 :: b21 :: b22 :: b23 :: b24 :: b25 :: b26 :: b27 :: rest) =
      b14 :: b15 :: b16 :: b17 :: b18 :: b19 :: b20 :: b21 :: b22 :: b23 :: b24 :: b25 ::
      b26 :: b27 :: rest := by
    rw [skipIfAvailable_of_le _ _ (by simp)]
    rfl
  unfold parseHistoricalPacketGeneric
  rw [h4]
  simp only [readU32, bind, Except.bind]
  rw [h6]
  simp only [popFront, readU16, bind, Except.bind]

/-- C2: on every payload long enough for all its reads (28 bytes; shorter
payloads are rejected with an index error before the RR-count check can
succeed), the generic historical parser skips 4 bytes, reads u32 LE unix
seconds at offset 4 and scales by 1000, skips 6 bytes, reads bpm at 14 and
rr-count at 15, reads exactly four u16 LE RR slots at 16–23 discarding
zero values, fails with `InvalidRRCount` iff the surviving count differs
from rr-count, and otherwise returns the reading with the u32 LE activity
at 24–27, no IMU samples and no sensor block. -/
theorem claim_C2_generic_layout (b0 b1 b2 b3 b4 b5 b6 b7 b8 b9 b10 b11 b12 b13 b14 b15
    b16 b17 b18 b19 b20 b21 b22 b23 b24 b25 b26 b27 : Nat) (rest : List Nat) :
    (([u16leVal b16 b17, u16leVal b18 b19, u16leVal b20 b21,
          u16leVal b22 b23].filter (· ≠ 0)).length ≠ b15 →
        parseHistoricalPacketGeneric (b0 :: b1 :: b2 :: b3 :: b4 :: b5 :: b6 :: b7 :: b8 ::
            b9 :: b10 :: b11 :: b12 :: b13 :: b14 :: b15 :: b16 :: b17 :: b18 :: b19 :: b20 ::
            b21 :: b22 :: b23 :: b24 :: b25 :: b26 :: b27 :: rest)
          = .error .InvalidRRCount) ∧
    (([u16leVal b16 b17, u16leVal b18 b19, u16leVal b20 b21,
          u16leVal b22 b23].filter (· ≠ 0)).length = b15 →
        parseHistoricalPacketGeneric (b0 :: b1 :: b2 :: b3 :: b4 :: b5 :: b6 :: b7 :: b8 ::
            b9 :: b10 :: b11 :: b12 :: b13 :: b14 :: b15 :: b16 :: b17 :: b18 :: b19 :: b20 ::
            b21 :: b22 :: b23 :: b24 :: b25 :: b26 :: b27 :: rest)
          = .ok (.HistoryReading ⟨u32leVal [b4, b5, b6, b7] * 1000, b14,
              [u16leVal b16 b17, u16leVal b18 b19, u16leVal b20 b21,
                u16leVal b22 b23].filter (· ≠ 0),
              u32leVal [b24, b25, b26, b27], [], none⟩)) := by
  constructor <;> intro h <;> rw [parseGeneric_eq] <;>
    simp only [ne_eq, decide_not] at h ⊢ <;> simp [h]

theorem claim_C2_generic_layout_witness :
    parseHistoricalPacketGeneric (0 :: 0 :: 0 :: 0 :: 1 :: 0 :: 0 :: 0 :: 0 :: 0 :: 0 :: 0 ::
        0 :: 0 :: 70 :: 1 :: 77 :: 3 :: 0 :: 0 :: 0 :: 0 :: 0 :: 0 :: 9 :: 0 :: 0 :: 0 :: [])
        = .ok (.HistoryReading ⟨1000, 70, [845], 9, [], none⟩) ∧
    parseHistoricalPacketGeneric (0 :: 0 :: 0 :: 0 :: 1 :: 0 :: 0 :: 0 :: 0 :: 0 :: 0 :: 0 ::
        0 :: 0 :: 70 :: 2 :: 77 :: 3 :: 0 :: 0 :: 0 :: 0 :: 0 :: 0 :: 9 :: 0 :: 0 :: 0 :: [])
        = .error .InvalidRRCount :=
  ⟨(claim_C2_generic_layout 0 0 0 0 1 0 0 0 0 0 0 0 0 0 70 1 77 3 0 0 0 0 0 0 9 0 0 0 []).2
      (by decide),
   (claim_C2_generic_layout 0 0 0 0 1 0 0 0 0 0 0 0 0 0 70 2 77 3 0 0 0 0 0 0 9 0 0 0 []).1
      (by decide)⟩

/-- Outcome of running a Rust function that may return, error, or panic. -/
inductive RustOutcome (α : Type) where
  | ok (a : α)
  | err (e : WhoopError)
  | panic
  deriving DecidableEq, Repr

/-- Lift an `Err`-propagating computation into `RustOutcome`. -/
def RustOutcome.fromExcept (x : Except WhoopError α) : RustOutcome α :=
  match x with
  | .ok a => .ok a
  | .error e => .err e

def RustOutcome.bind (x : RustOutcome α) (f : α → RustOutcome β) : RustOutcome β :=
  match x with
  | .ok a => f a
  | .err e => .err e
  | .panic => .panic

/-- `BufferReader::read::<N>` with the error propagated (`?`): drain the
first `n` bytes, or fail without draining. -/
def readN (n : Nat) (l : List Nat) : Except WhoopError (List Nat × List Nat) :=
  if l.length < n then .error .InvalidIndexError
  else .ok (l.take n, l.drop n)

/-- The RR loop of `parse_historical_packet_with_imu`: read `n` u16 LE
values, keeping the non-zero ones in order. -/
def readRRSlots : Nat → List Nat → Except WhoopError (List Nat × List Nat)
  | 0, l => .ok ([], l)
  | n + 1, l => do
    let (v, l) ← readU16 l
    let (vs, l') ← readRRSlots n l
    .ok (if v ≠ 0 then v :: vs else vs, l')

/-- `i16::from_be_bytes`. -/
def i16beVal (b0 b1 : Nat) : Int :=
  let v := b0 * 256 + b1
  if v ≥ 32768 then (v : Int) - 65536 else (v : Int)

/-- The `read_imu_axis_data` closure of `parse_historical_packet_with_imu`:
each sample lives at `offset - header_offset + i * 2`.  The subtraction is
on `usize`; when `header_offset > offset` it underflows, which panics on a
debug build and, on a release build, wraps so that the subsequent
`start..end` slice has reversed bounds and panics there — modelled as the
`panic` outcome.  Otherwise each 2-byte read is bounds-checked and yields
a big-endian i16. -/
def readImuAxis (pdata : List Nat) (offset headerOffset : Nat) : RustOutcome (List Int) :=
  if offset < headerOffset then .panic
  else
    let base := offset - headerOffset
    RustOutcome.fromExcept <| (List.range 100).mapM fun i =>
      if base + i * 2 + 2 > pdata.length then .error .InvalidData
      else .ok (i16beVal (pdata.getD (base + i * 2) 0) (pdata.getD (base + i * 2 + 1) 0))

/-- The header reads of `parse_historical_packet_with_imu` (all with `?`):
4 unknown bytes, u32 LE unix seconds, u16 LE sub-second, 4 more unknown
bytes, bpm, rr-count, then rr-count u16 LE RR values keeping non-zero
ones; the surviving count (`as u8`, hence mod 256) must equal rr-count;
finally the u32 LE activity. -/
def imuHeader (packet : List Nat) :
    Except WhoopError (Nat × Nat × List Nat × Nat × List Nat) := do
  let (_, packet) ← readN 4 packet
  let (unixSecs, packet) ← readU32 packet
  let (_, packet) ← readU16 packet
  let (_, packet) ← readN 4 packet
  let (bpm, packet) ← popFront packet
  let (rrCount, packet) ← popFront packet
  let (rr, packet) ← readRRSlots rrCount packet
  if rr.length % 256 ≠ rrCount then .error .InvalidRRCount
  else do
    let (activity, packet) ← readU32 packet
    .ok (unixSecs, bpm, rr, activity, packet)

/-- Assemble the 100 IMU samples from the six raw axis streams (the source
also divides by the f32 sensitivities; the raw i16 values are kept). -/
def imuZip (ax ay az gx gy gz : List Int) : List ImuSample :=
  (List.range 100).map fun i =>
    ⟨ax.getD i 0, ay.getD i 0, az.getD i 0, gx.getD i 0, gy.getD i 0, gz.getD i 0⟩

/-- `WhoopData::parse_historical_packet_with_imu`: header reads, the
RR-count check, the activity read, then six IMU axis reads at the fixed
offsets 85/285/485/688/888/1088 against `header_offset = 20 + 2·|rr|`. -/
def parseHistoricalPacketWithImu (packet : List Nat) : RustOutcome WhoopData :=
  match imuHeader packet with
  | .error e => .err e
  | .ok (unixSecs, bpm, rr, activity, rest) =>
    let headerOffset := 20 + rr.length * 2
    (readImuAxis rest 85 headerOffset).bind fun accX =>
    (readImuAxis rest 285 headerOffset).bind fun accY =>
    (readImuAxis rest 485 headerOffset).bind fun accZ =>
    (readImuAxis rest 688 headerOffset).bind fun gyrX =>
    (readImuAxis rest 888 headerOffset).bind fun gyrY =>
    (readImuAxis rest 1088 headerOffset).bind fun gyrZ =>
    .ok (.HistoryReading ⟨unixSecs * 1000, bpm, rr, activity,
      imuZip accX accY accZ gyrX gyrY gyrZ, none⟩)

/-- The RR slots of the V12/V24 layout: up to `min(rr_count, 4)` u16 LE
values at offsets 16, 18, 20, 22, keeping non-zero ones (the source's
bounds `break` can never fire under the caller's 77-byte guard). -/
def rrSlotsV12 (d : List Nat) (rrCount : Nat) : List Nat :=
  (List.range (min rrCount 4)).filterMap fun i =>
    let off := 16 + i * 2
    if off + 2 > d.length then none
    else
      let val := u16leVal (d.getD off 0) (d.getD (off + 1) 0)
      if val ≠ 0 then some val else none

/-- `WhoopData::parse_historical_packet_v12`: fixed-offset reads from a
payload of at least 77 bytes; the accelerometer gravity f32 values are
kept as their little-endian u32 bit patterns (zero when absent, matching
the `[0.0f32; 3]` default). -/
def parseHistoricalPacketV12 (d : List Nat) : Except WhoopError WhoopData :=
  if d.length < 77 then .error .InvalidData
  else
    let b := fun i => d.getD i 0
    let u16at := fun i => u16leVal (b i) (b (i + 1))
    let gravityBits :=
      if 45 ≤ d.length then
        [u32leVal [b 33, b 34, b 35, b 36], u32leVal [b 37, b 38, b 39, b 40],
          u32leVal [b 41, b 42, b 43, b 44]]
      else [0, 0, 0]
    .ok (.HistoryReading ⟨u32leVal [b 4, b 5, b 6, b 7] * 1000, b 14,
      rrSlotsV12 d (b 15), 0, [],
      some ⟨u16at 26, u16at 28, u16at 61, u16at 63, u16at 65, u16at 67, u16at 69,
        u16at 71, u16at 73, u16at 75, b 48, gravityBits⟩⟩)

/-- `WhoopData::parse_historical_packet`: payloads of at least 1188 bytes
go to the IMU parser; V12/V24 payloads of at least 77 bytes go to the DSP
parser; everything else goes to the generic parser. -/
def parseHistoricalPacket (version : Nat) (packet : List Nat) : RustOutcome WhoopData :=
  if 1188 ≤ packet.length then parseHistoricalPacketWithImu packet
  else if (version = 12 ∨ version = 24) ∧ 77 ≤ packet.length then
    RustOutcome.fromExcept (parseHistoricalPacketV12 packet)
  else RustOutcome.fromExcept (parseHistoricalPacketGeneric packet)

/-- A 1188-byte historical payload whose rr-count byte (offset 15) is 33,
followed by 33 non-zero little-endian RR words. -/
def imuPanicInput : List Nat :=
  List.replicate 14 0 ++ [0, 33] ++ (List.replicate 33 [1, 0]).flatten ++ List.replicate 1106 0

set_option maxRecDepth 100000 in
example : imuPanicInput.length = 1188 := by decide

set_option maxRecDepth 1000000 in
/-- C3 (refuting the no-panic claim): on the 1188-byte historical payload
whose rr-count is 33 (with 33 non-zero RR words), the IMU parser's sample
offset arithmetic `ACC_X_OFFSET - header_offset = 85 - (20 + 2·33)`
underflows `usize` and the decoder panics instead of returning a
structured error. -/
theorem claim_C3_imu_panic : parseHistoricalPacket 0 imuPanicInput = .panic := by decide

/-- Truncating division is bounded above by `hi` when the numerator is at
most `hi * n` (positive divisor, `0 ≤ hi`). -/
theorem tdiv_le_of_le_mul (S hi n : Int) (hn : 0 < n) (hhi : 0 ≤ hi)
    (h : S ≤ hi * n) : S.tdiv n ≤ hi := by
  rcases le_or_lt 0 S with hS | hS
  · rw [Int.tdiv_eq_ediv hS hn.le]
    calc S / n ≤ hi * n / n := Int.ediv_le_ediv hn h
    _ = hi := Int.mul_ediv_cancel hi hn.ne'
  · have hrw : S.tdiv n = -((-S).tdiv n) := by rw [Int.neg_tdiv, neg_neg]
    rw [hrw]
    have hnn : 0 ≤ (-S).tdiv n := Int.tdiv_nonneg (by omega) hn.le
    omega

/-- Truncating division is bounded below by `lo` when the numerator is at
least `lo * n` (positive divisor, `lo ≤ 0`). -/
theorem le_tdiv_of_mul_le (S lo n : Int) (hn : 0 < n) (hlo : lo ≤ 0)
    (h : lo * n ≤ S) : lo ≤ S.tdiv n := by
  rcases le_or_lt 0 S with hS | hS
  · exact le_trans hlo (Int.tdiv_nonneg hS hn.le)
  · have hrw : S.tdiv n = -((-S).tdiv n) := by rw [Int.neg_tdiv, neg_neg]
    rw [hrw]
    have h1 : (-S).tdiv n = (-S) / n := Int.tdiv_eq_ediv (by omega) hn.le
    have h2 : (-S) / n ≤ -lo := by
      calc (-S) / n ≤ (-lo) * n / n := Int.ediv_le_ediv hn (by rw [neg_mul]; omega)
      _ = -lo := Int.mul_ediv_cancel _ hn.ne'
    rw [h1]
    linarith [h2]

/-- `SleepCycle::sleep_score`: integer seconds divided by the 8-hour ideal
duration (i64 truncating division), scaled by 100 and clamped to
`[0, 100]`.  The source does the scaling and clamping on f64, but the
divided value is an exactly representable integer and the clamped result
is always exactly the integer 0 or 100, so integer arithmetic is exact. -/
def sleepScore (start stop : Int) : Int :=
  let duration := stop - start
  let score := duration.tdiv (60 * 60 * 8)
  max 0 (min 100 (score * 100))

/-- C4: the sleep score is `clamp((duration / 28800) * 100, 0, 100)` with
integer division: strictly between 0 and 8 hours scores 0, exactly 8
hours scores 100, and anything longer clamps to 100. -/
theorem claim_C4_sleep_score (start stop : Int) :
    sleepScore start stop = max 0 (min 100 ((stop - start).tdiv 28800 * 100)) ∧
    (0 < stop - start → stop - start < 28800 → sleepScore start stop = 0) ∧
    (stop - start = 28800 → sleepScore start stop = 100) ∧
    (28800 ≤ stop - start → sleepScore start stop = 100) := by
  refine ⟨rfl, ?_, ?_, ?_⟩
  · intro h1 h2
    have hq : (stop - start).tdiv 28800 = 0 := by
      rw [Int.tdiv_eq_ediv (by omega) (by norm_num)]
      exact Int.ediv_eq_zero_of_lt (by omega) (by omega)
    simp [sleepScore, show ((60:Int) * 60 * 8) = 28800 by norm_num, hq]
  · intro h
    have hq : (stop - start).tdiv 28800 = 1 := by rw [h]; decide
    simp [sleepScore, show ((60:Int) * 60 * 8) = 28800 by norm_num, hq]
  · intro h
    have h1 : 1 ≤ (stop - start).tdiv 28800 := by
      have heq : (stop - start).tdiv 28800 = (stop - start) / 28800 :=
        Int.tdiv_eq_ediv (by omega) (by norm_num)
      rw [heq]
      have := Int.ediv_le_ediv (show (0:Int) < 28800 by norm_num) h
      simpa using this
    have h2 : 100 ≤ (stop - start).tdiv 28800 * 100 := by nlinarith
    simp only [sleepScore, show ((60:Int) * 60 * 8) = 28800 by norm_num]
    have h3 : min 100 ((stop - start).tdiv 28800 * 100) = 100 := min_eq_left h2
    rw [h3]
    norm_num

theorem claim_C4_sleep_score_witness :
    sleepScore 0 14400 = 0 ∧ sleepScore 0 28800 = 100 ∧ sleepScore 0 86400 = 100 :=
  ⟨(claim_C4_sleep_score 0 14400).2.1 (by decide) (by decide),
   (claim_C4_sleep_score 0 28800).2.2.1 (by decide),
   (claim_C4_sleep_score 0 86400).2.2.2 (by decide)⟩

/-- `whoop_data/history.rs`: the coarse activity classification. -/
inductive Activity where
  | Unknown
  | Active
  | Inactive
  | Sleep
  | Awake
  deriving DecidableEq, Repr

/-- `whoop_data/history.rs`: a reading with its decoded time and activity.
`time` is modelled as seconds on the naive-datetime axis; the optional IMU
block is carried along untouched. -/
structure ParsedHistoryReading where
  time : Int
  bpm : Nat
  rr : List Nat
  activity : Activity
  imuData : Option (List ImuSample)
  deriving DecidableEq, Repr

/-- `openwhoop-algos/src/activity.rs`: a detected activity period.  The
source's `end` field is named `stop` (`end` is reserved in Lean). -/
structure ActivityPeriod where
  activity : Activity
  start : Int
  stop : Int
  duration : Int
  deriving DecidableEq, Repr

/-- `NaiveDateTime::date()` on the seconds axis: the day number (floor). -/
def dateOf (t : Int) : Int := t.fdiv 86400

/-- `openwhoop-algos/src/sleep.rs`: a computed sleep cycle.  `id` is the
day number of the cycle's end; `score` is the (exact, integer-valued)
sleep score. -/
structure SleepCycle where
  id : Int
  start : Int
  stop : Int
  minBpm : Nat
  maxBpm : Nat
  avgBpm : Nat
  minHrv : Nat
  maxHrv : Nat
  avgHrv : Nat
  score : Int
  deriving DecidableEq, Repr

/-- `SleepCycle::clean_rr`: flatten the per-reading RR lists and drop
zeros. -/
def cleanRr (rr : List (List Nat)) : List Nat :=
  rr.flatten.filter (fun v => 0 < v)

/-- `slice::windows(n)`: all contiguous length-`n` sub-slices (empty when
the slice is shorter than `n`). -/
def listWindows (n : Nat) (l : List Nat) : List (List Nat) :=
  (List.range (l.length + 1 - n)).map fun i => (l.drop i).take n

/-- `SleepCycle::calculate_rmssd`: root mean square of successive
differences over a window.  The source computes on f64 and truncates to
u64; exact integer arithmetic is used here (`⌊√⌊S/n⌋⌋ = ⌊√(S/n)⌋`, and no
claim depends on the value, only on the `Option` shape). -/
def calculateRmssd (window : List Nat) : Option Nat :=
  if window.length < 2 then none
  else
    let rrDiff := List.zipWith (fun a b => ((b : Int) - (a : Int)).natAbs ^ 2)
      window window.tail
    some (Nat.sqrt (rrDiff.sum / rrDiff.length))

/-- `SleepCycle::rolling_hrv`: RMSSD over every 300-sample window. -/
def rollingHrv (rr : List Nat) : List Nat :=
  (listWindows 300 rr).filterMap calculateRmssd

/-- `SleepCycle::from_event`: gather the readings inside the event's time
range, compute min/max/average heart rate and rolling HRV.  The two
averages divide by `rolling_hrv.len()` and `heart_rate.len()` with no
zero guard — a `u64` division by zero panics, modelled as `none`.  The
`as u16` / `as u8` narrowings truncate. -/
def SleepCycle.fromEvent (event : ActivityPeriod) (history : List ParsedHistoryReading) :
    Option SleepCycle :=
  let filtered := history.filter fun h =>
    decide (event.start ≤ h.time) && decide (h.time ≤ event.stop)
  let heartRate := filtered.map (·.bpm)
  let rr := cleanRr (filtered.map (·.rr))
  let hrv := rollingHrv rr
  let minHrv := ((hrv.min?).getD 0) % 65536
  let maxHrv := ((hrv.max?).getD 0) % 65536
  if hrv.length = 0 then none
  else
    let avgHrv := (hrv.sum / hrv.length) % 65536
    let minBpm := ((heartRate.min?).getD 0) % 256
    let maxBpm := ((heartRate.max?).getD 0) % 256
    if heartRate.length = 0 then none
    else
      let avgBpm := (heartRate.sum / heartRate.length) % 256
      some ⟨dateOf event.stop, event.start, event.stop, minBpm, maxBpm, avgBpm,
        minHrv, maxHrv, avgHrv, sleepScore event.start event.stop⟩

theorem rollingHrv_eq_nil_iff (rr : List Nat) : rollingHrv rr = [] ↔ rr.length < 300 := by
  constructor
  · intro h
    by_contra hlen
    push_neg at hlen
    have hw : (rr.drop 0).take 300 ∈ listWindows 300 rr := by
      unfold listWindows
      exact List.mem_map.mpr ⟨0, List.mem_range.mpr (by omega), rfl⟩
    have hwl : ((rr.drop 0).take 300).length = 300 := by
      simp only [List.length_take, List.length_drop]
      omega
    have hsome : ∃ v, calculateRmssd ((rr.drop 0).take 300) = some v := by
      unfold calculateRmssd
      rw [if_neg (by omega)]
      exact ⟨_, rfl⟩
    obtain ⟨v, hv⟩ := hsome
    have : v ∈ rollingHrv rr := List.mem_filterMap.mpr ⟨_, hw, hv⟩
    rw [h] at this
    exact absurd this (List.not_mem_nil v)
  · intro hlen
    unfold rollingHrv listWindows
    have h0 : rr.length + 1 - 300 = 0 := by omega
    rw [h0]
    rfl

/-- C10: `SleepCycle::from_event` is not total: it returns a cycle exactly
when the event's time range contains at least one reading and those
readings carry at least 300 non-zero RR samples (so a 300-sample RMSSD
window exists); otherwise the heart-rate or rolling-HRV average divides by
zero and the function panics (modelled as `none`). -/
theorem claim_C10_from_event_partiality (event : ActivityPeriod)
    (history : List ParsedHistoryReading) :
    (SleepCycle.fromEvent event history).isSome ↔
      (history.filter fun h =>
          decide (event.start ≤ h.time) && decide (h.time ≤ event.stop)) ≠ [] ∧
      300 ≤ (cleanRr ((history.filter fun h =>
          decide (event.start ≤ h.time) && decide (h.time ≤ event.stop)).map (·.rr))).length := by
  unfold SleepCycle.fromEvent
  set filtered := history.filter fun h =>
    decide (event.start ≤ h.time) && decide (h.time ≤ event.stop) with hfiltered
  simp only []
  split_ifs with h1 h2
  · simp only [Option.isSome_none, Bool.false_eq_true, false_iff, not_and, not_le]
    intro _
    have : rollingHrv (cleanRr (filtered.map (·.rr))) = [] := List.eq_nil_of_length_eq_zero h1
    exact (rollingHrv_eq_nil_iff _).mp this
  · simp only [Option.isSome_none, Bool.false_eq_true, false_iff, not_and]
    intro hne
    exact absurd (List.map_eq_nil_iff.mp (List.eq_nil_of_length_eq_zero h2)) hne
  · simp only [Option.isSome_some, true_iff]
    refine ⟨?_, ?_⟩
    · intro hnil
      exact h2 (by rw [hnil]; rfl)
    · by_contra hlt
      push_neg at hlt
      exact h1 (by rw [(rollingHrv_eq_nil_iff _).mpr hlt]; rfl)

/-- The snapshot replacement rule of `ActivityPeriod::smooth_spikes`: for
an interior index whose neighbours agree and differ from the middle, the
new value is the left neighbour's; every other index keeps its value.
All lookups are into the original activity snapshot `a`. -/
def smoothedAt (a : List Activity) (i : Nat) : Activity :=
  if 1 ≤ i ∧ i + 1 < a.length ∧ a.getD (i - 1) .Unknown = a.getD (i + 1) .Unknown ∧
      a.getD i .Unknown ≠ a.getD (i - 1) .Unknown
  then a.getD (i - 1) .Unknown
  else a.getD i .Unknown

/-- `ActivityPeriod::smooth_spikes`: a no-op on fewer than 3 readings;
otherwise replacements are computed against a snapshot of the activity
values and written back, all other fields untouched. -/
def smoothSpikes (data : List ParsedHistoryReading) : List ParsedHistoryReading :=
  if data.length < 3 then data
  else
    let acts := data.map (·.activity)
    data.mapIdx fun i h => ⟨h.time, h.bpm, h.rr, smoothedAt acts i, h.imuData⟩

/-- The alternating five-reading sequence Sleep/Active/Sleep/Active/Sleep:
one smoothing pass yields Sleep/Sleep/Active/Sleep/Sleep, and a second
pass changes the middle value again. -/
def spikeExample : List ParsedHistoryReading :=
  [⟨0, 70, [], .Sleep, none⟩, ⟨60, 70, [], .Active, none⟩, ⟨120, 70, [], .Sleep, none⟩,
   ⟨180, 70, [], .Active, none⟩, ⟨240, 70, [], .Sleep, none⟩]

/-- C5 counterexample: smooth-spikes is not idempotent — on the
alternating five-reading sequence a second application changes the result
of the first. -/
theorem claim_C5_counterexample :
    smoothSpikes (smoothSpikes spikeExample) ≠ smoothSpikes spikeExample := by decide

/-- C5 (amended): smooth-spikes is a no-op on sequences of length < 3,
preserves length, and for longer sequences each position's activity is
computed from the snapshot of the original values — `a[i-1]` when
`a[i-1] == a[i+1]` and `a[i] != a[i-1]`, `a[i]` otherwise.  (The claim's
idempotence part is false; see the counterexample.) -/
theorem claim_C5_smooth_spikes (data : List ParsedHistoryReading) :
    (data.length < 3 → smoothSpikes data = data) ∧
    (smoothSpikes data).length = data.length ∧
    (3 ≤ data.length → ∀ i, i < data.length →
      ((smoothSpikes data).getD i ⟨0, 0, [], .Unknown, none⟩).activity
        = smoothedAt (data.map (·.activity)) i) := by
  refine ⟨fun h => by simp [smoothSpikes, h], ?_, ?_⟩
  · unfold smoothSpikes
    split_ifs with h
    · rfl
    · simp [List.length_mapIdx]
  · intro h3 i hi
    unfold smoothSpikes
    rw [if_neg (by omega)]
    simp only [List.getD_eq_getElem?_getD, List.getElem?_mapIdx]
    rw [List.getElem?_eq_getElem hi]
    rfl

theorem claim_C5_smooth_spikes_witness :
    smoothSpikes [⟨0, 70, [], .Sleep, none⟩, ⟨60, 70, [], .Active, none⟩]
        = [⟨0, 70, [], .Sleep, none⟩, ⟨60, 70, [], .Active, none⟩] ∧
    ((smoothSpikes spikeExample).getD 1 ⟨0, 0, [], .Unknown, none⟩).activity
        = smoothedAt (spikeExample.map (·.activity)) 1 :=
  ⟨(claim_C5_smooth_spikes _).1 (by decide),
   (claim_C5_smooth_spikes spikeExample).2.2 (by decide) 1 (by decide)⟩

/-- The decoder-facing state of `OpenWhoop` (`openwhoop.rs`): the last
accepted reading used for deduplication, and the in-memory batch that a
`HistoryEnd` metadata record flushes to storage. -/
structure OpenWhoopState where
  lastHistoryPacket : Option HistoryReading
  historyPackets : List HistoryReading
  deriving DecidableEq, Repr

/-- `OpenWhoop::new` starts with no dedup state and an empty batch. -/
def OpenWhoopState.init : OpenWhoopState := ⟨none, []⟩

/-- `OpenWhoop::handle_data`, restricted to its state effects (log lines
and the `history_end` reply packet are omitted): a valid reading (bpm > 0)
is dropped when its (unix, bpm) pair equals the stored dedup pair,
otherwise the dedup pair is overwritten with the reading's (unix, bpm)
(only those two fields) and the reading is appended to the batch; a
`HistoryEnd` metadata record takes the whole batch out (`mem::take`); an
invalid reading and every other record leave the state unchanged. -/
def handleData (s : OpenWhoopState) (d : WhoopData) : OpenWhoopState :=
  match d with
  | .HistoryReading hr =>
    if hr.isValid then
      match s.lastHistoryPacket with
      | some last =>
        if last.unix = hr.unix ∧ last.bpm = hr.bpm then s
        else
          ⟨some ⟨hr.unix, hr.bpm, last.rr, last.activity, last.imuData, last.sensorData⟩,
            s.historyPackets ++ [hr]⟩
      | none => ⟨some hr, s.historyPackets ++ [hr]⟩
    else s
  | .HistoryMetadata _ _ cmd =>
    match cmd with
    | .HistoryEnd => ⟨s.lastHistoryPacket, []⟩
    | _ => s
  | _ => s

/-- The handler invariant: every batched reading has positive bpm, no two
consecutive batched readings share their (unix, bpm) pair, and the dedup
state mirrors the (unix, bpm) pair of the last batched reading. -/
def handlerInv (s : OpenWhoopState) : Prop :=
  (∀ r ∈ s.historyPackets, 0 < r.bpm) ∧
  s.historyPackets.Chain' (fun a b => ¬(a.unix = b.unix ∧ a.bpm = b.bpm)) ∧
  ∀ r ∈ s.historyPackets.getLast?,
    ∃ l, s.lastHistoryPacket = some l ∧ l.unix = r.unix ∧ l.bpm = r.bpm

theorem handlerInv_init : handlerInv OpenWhoopState.init := by
  refine ⟨by simp [OpenWhoopState.init], by simp [OpenWhoopState.init],
    by simp [OpenWhoopState.init]⟩

theorem handlerInv_append (s : OpenWhoopState) (hr : HistoryReading)
    (hinv : handlerInv s) (hbpm : 0 < hr.bpm)
    (hnew : ∀ r ∈ s.historyPackets.getLast?, ¬(r.unix = hr.unix ∧ r.bpm = hr.bpm)) :
    (∀ r ∈ s.historyPackets ++ [hr], 0 < r.bpm) ∧
    (s.historyPackets ++ [hr]).Chain' (fun a b => ¬(a.unix = b.unix ∧ a.bpm = b.bpm)) := by
  obtain ⟨h1, h2, _⟩ := hinv
  refine ⟨?_, ?_⟩
  · intro r hrm
    rcases List.mem_append.mp hrm with hm | hm
    · exact h1 r hm
    · rw [List.mem_singleton.mp hm]; exact hbpm
  · rw [List.chain'_append]
    refine ⟨h2, List.chain'_singleton hr, ?_⟩
    intro x hx y hy
    rw [List.head?_cons, Option.mem_some_iff] at hy
    subst hy
    exact hnew x hx

theorem handlerInv_step (s : OpenWhoopState) (d : WhoopData) (hinv : handlerInv s) :
    handlerInv (handleData s d) := by
  obtain ⟨h1, h2, h3⟩ := hinv
  match d with
  | .HistoryReading hr =>
    simp only [handleData]
    split_ifs with hvalid
    · have hbpm : 0 < hr.bpm := by
        simpa [HistoryReading.isValid] using hvalid
      match hlast : s.lastHistoryPacket with
      | some last =>
        dsimp only
        split_ifs with heq
        · exact ⟨h1, h2, h3⟩
        · have hnew : ∀ r ∈ s.historyPackets.getLast?,
              ¬(r.unix = hr.unix ∧ r.bpm = hr.bpm) := by
            intro r hrm hcontra
            obtain ⟨l, hl, hlu, hlb⟩ := h3 r hrm
            rw [hlast] at hl
            obtain rfl : last = l := by injection hl
            exact heq ⟨by omega, by omega⟩
          obtain ⟨g1, g2⟩ := handlerInv_append s hr ⟨h1, h2, h3⟩ hbpm hnew
          refine ⟨g1, g2, ?_⟩
          intro r hrm
          simp only [List.getLast?_append, List.getLast?_singleton] at hrm
          simp at hrm
          subst hrm
          exact ⟨_, rfl, rfl, rfl⟩
      | none =>
        have hnil : s.historyPackets = [] := by
          cases hp : s.historyPackets with
          | nil => rfl
          | cons a l =>
            exfalso
            have : s.historyPackets.getLast? ≠ none := by
              rw [hp]
              simp [List.getLast?_cons]
            obtain ⟨l', hl', _⟩ := h3 _ (Option.get_mem (Option.ne_none_iff_isSome.mp this))
            rw [hlast] at hl'
            exact Option.noConfusion hl'
        dsimp only
        refine ⟨?_, ?_, ?_⟩
        · intro r hrm
          rw [hnil] at hrm
          simp only [List.nil_append, List.mem_singleton] at hrm
          subst hrm
          exact hbpm
        · rw [hnil]
          exact List.chain'_singleton hr
        · intro r hrm
          rw [hnil] at hrm
          simp only [List.nil_append, List.getLast?_singleton, Option.mem_some_iff] at hrm
          subst hrm
          exact ⟨hr, rfl, rfl, rfl⟩
    · exact ⟨h1, h2, h3⟩
  | .HistoryMetadata u dd cmd =>
    match cmd with
    | .HistoryEnd => exact ⟨by simp [handleData], by simp [handleData], by simp [handleData]⟩
    | .HistoryStart => exact ⟨h1, h2, h3⟩
    | .HistoryComplete => exact ⟨h1, h2, h3⟩
  | .ConsoleLog u lg => exact ⟨h1, h2, h3⟩
  | .RunAlarm u => exact ⟨h1, h2, h3⟩
  | .Event u e => exact ⟨h1, h2, h3⟩
  | .UnknownEvent u e => exact ⟨h1, h2, h3⟩
  | .VersionInfo a b => exact ⟨h1, h2, h3⟩

theorem handlerInv_foldl (events : List WhoopData) (s : OpenWhoopState)
    (hinv : handlerInv s) : handlerInv (events.foldl handleData s) := by
  induction events generalizing s with
  | nil => exact hinv
  | cons d rest ih => exact ih _ (handlerInv_step s d hinv)

/-- C6: after processing any sequence of decoded records from the initial
state, every reading in the in-memory batch has bpm > 0, and no two
consecutive batched readings share their (unix, bpm) pair. -/
theorem claim_C6_handler_batch (events : List WhoopData) :
    (∀ r ∈ (events.foldl handleData OpenWhoopState.init).historyPackets, 0 < r.bpm) ∧
    (events.foldl handleData OpenWhoopState.init).historyPackets.Chain'
      (fun a b => ¬(a.unix = b.unix ∧ a.bpm = b.bpm)) := by
  obtain ⟨h1, h2, _⟩ := handlerInv_foldl events OpenWhoopState.init handlerInv_init
  exact ⟨h1, h2⟩

/-- `chrono::NaiveTime`, restricted to whole seconds (the code never uses
sub-second precision here).  A value produced by chrono always satisfies
`hour < 24`, `minute < 60`, `second < 60`; that validity is carried as a
hypothesis in the theorems. -/
structure NaiveTime where
  hour : Nat
  minute : Nat
  second : Nat
  deriving DecidableEq, Repr

/-- A chrono-valid wall-clock time. -/
def NaiveTime.valid (t : NaiveTime) : Prop :=
  t.hour < 24 ∧ t.minute < 60 ∧ t.second < 60

instance (t : NaiveTime) : Decidable t.valid := by
  unfold NaiveTime.valid
  infer_instance

/-- `NaiveTime::from_hms_opt`. -/
def NaiveTime.fromHmsOpt (h m s : Nat) : Option NaiveTime :=
  if h < 24 ∧ m < 60 ∧ s < 60 then some ⟨h, m, s⟩ else none

/-- `helpers/time_math.rs` `map_time`: signed seconds on a 24-hour axis
centred at noon — hours strictly above 12 are remapped by subtracting
24. -/
def mapTime (t : NaiveTime) : Int :=
  let h : Int := if (t.hour : Int) > 12 then (t.hour : Int) - 24 else (t.hour : Int)
  h * 3600 + (t.minute : Int) * 60 + (t.second : Int)

/-- `helpers/time_math.rs` `mean_time`: the empty list yields midnight
(`NaiveTime::default()`); otherwise the mapped values are averaged with
i64 truncating division, 86400 is added when the mean is negative, and
the result is converted back with `from_hms_opt` — whose failure the
source turns into a panic via `.expect("Invalid time")`, modelled as
`none`.  The h/m/s decomposition divides non-negative values, where i64
`/` and `%` agree with Euclidean division. -/
def meanTime (times : List NaiveTime) : Option NaiveTime :=
  if times = [] then some ⟨0, 0, 0⟩
  else
    let mean0 := (times.map mapTime).sum.tdiv (times.length : Int)
    let mean := if mean0 < 0 then mean0 + 86400 else mean0
    NaiveTime.fromHmsOpt (mean / 3600).toNat ((mean % 3600) / 60).toNat (mean % 60).toNat

theorem mapTime_lower (t : NaiveTime) (h : t.valid) : -39600 ≤ mapTime t := by
  obtain ⟨h1, h2, h3⟩ := h
  unfold mapTime
  dsimp only
  split_ifs with hh <;> omega

theorem mapTime_upper (t : NaiveTime) (h : t.valid) : mapTime t ≤ 46799 := by
  obtain ⟨h1, h2, h3⟩ := h
  unfold mapTime
  dsimp only
  split_ifs with hh <;> omega

theorem mapped_sum_bounds (times : List NaiveTime) (hvalid : ∀ t ∈ times, t.valid) :
    -39600 * (times.length : Int) ≤ (times.map mapTime).sum ∧
    (times.map mapTime).sum ≤ 46799 * (times.length : Int) := by
  induction times with
  | nil => simp
  | cons t rest ih =>
    have ht := hvalid t (List.mem_cons_self t rest)
    obtain ⟨ih1, ih2⟩ := ih fun x hx => hvalid x (List.mem_cons_of_mem t hx)
    simp only [List.map_cons, List.sum_cons, List.length_cons]
    have hl := mapTime_lower t ht
    have hu := mapTime_upper t ht
    push_cast
    constructor <;> nlinarith

/-- C7: the wall-clock mean maps each time to signed seconds on the
noon-centred axis, averages there, adds 86400 when the mean is negative,
and converts back; on every non-empty list of valid wall-clock times the
conversion succeeds and yields a valid wall-clock time, and the mean of
{22:00, 23:00} is 22:30 (not 10:30). -/
theorem claim_C7_mean_time (times : List NaiveTime) (hne : times ≠ [])
    (hvalid : ∀ t ∈ times, t.valid) :
    (∃ u, meanTime times = some u ∧ u.valid) ∧
    meanTime [⟨22, 0, 0⟩, ⟨23, 0, 0⟩] = some ⟨22, 30, 0⟩ := by
  refine ⟨?_, by decide⟩
  have hn : 0 < times.length := List.length_pos.mpr hne
  obtain ⟨hs1, hs2⟩ := mapped_sum_bounds times hvalid
  set S := (times.map mapTime).sum with hS
  have hmean0lo : -39600 ≤ S.tdiv (times.length : Int) :=
    le_tdiv_of_mul_le S (-39600) (times.length : Int) (by exact_mod_cast hn)
      (by norm_num) hs1
  have hmean0hi : S.tdiv (times.length : Int) ≤ 46799 :=
    tdiv_le_of_le_mul S 46799 (times.length : Int) (by exact_mod_cast hn)
      (by norm_num) hs2
  unfold meanTime
  rw [if_neg hne]
  set mean0 := S.tdiv (times.length : Int) with hmean0
  set mean := if mean0 < 0 then mean0 + 86400 else mean0 with hmean
  have hrange : 0 ≤ mean ∧ mean ≤ 86399 := by
    rw [hmean]
    split_ifs with hneg <;> omega
  obtain ⟨hge, hle⟩ := hrange
  have hh : (mean / 3600).toNat < 24 := by omega
  have hm : ((mean % 3600) / 60).toNat < 60 := by omega
  have hsec : (mean % 60).toNat < 60 := by omega
  refine ⟨⟨(mean / 3600).toNat, ((mean % 3600) / 60).toNat, (mean % 60).toNat⟩, ?_, ?_⟩
  · unfold NaiveTime.fromHmsOpt
    rw [if_pos ⟨hh, hm, hsec⟩]
  · exact ⟨hh, hm, hsec⟩

theorem claim_C7_mean_time_witness :
    (∃ u, meanTime [⟨22, 0, 0⟩, ⟨23, 0, 0⟩] = some u ∧ u.valid) ∧
    meanTime [⟨22, 0, 0⟩, ⟨23, 0, 0⟩] = some ⟨22, 30, 0⟩ :=
  claim_C7_mean_time [⟨22, 0, 0⟩, ⟨23, 0, 0⟩] (by decide) (by decide)

/-- `sync.rs`: the sync engine's per-statement row limits, sized for
SQLite's 999-variable bound. -/
def HEART_RATE_BATCH : Nat := 90

def SLEEP_CYCLES_BATCH : Nat := 80

def ACTIVITIES_BATCH : Nat := 160

/-- `DatabaseHandler::create_readings` (`openwhoop-db/src/db.rs`): the
row counts of the insert statements it issues.  An empty list returns
early with no statement; otherwise every reading is mapped 1:1 to a
payload and a single `insert_many` carries them all — there is no
chunking in this function. -/
def createReadingsBatches (readings : List HistoryReading) : List Nat :=
  if readings = [] then [] else [readings.length]

/-- `DatabaseSync::sync_heart_rate`: each fetched batch is deduplicated
by the `time` column through a `HashMap` before the single upsert
statement, so the statement's row count is the number of distinct time
keys among the fetched rows. -/
def syncDedupRowCount (times : List Int) : Nat := times.dedup.length

/-- C9 (amended): the bulk reading insert `create_readings` sends every
non-empty list of readings in one insert statement carrying all the rows
— the ≤ 90-rows-per-statement bound does not hold there; it is the sync
engine that enforces it, by fetching at most `HEART_RATE_BATCH = 90`
unsynced heart-rate rows and upserting at most that many (after dedup by
time) per statement. -/
theorem claim_C9_insert_batching (readings : List HistoryReading) (hne : readings ≠ [])
    (rows : List Int) (hrows : rows.length ≤ HEART_RATE_BATCH) :
    createReadingsBatches readings = [readings.length] ∧
    syncDedupRowCount rows ≤ 90 := by
  refine ⟨by simp [createReadingsBatches, hne], ?_⟩
  unfold syncDedupRowCount
  calc rows.dedup.length ≤ rows.length := List.Sublist.length_le (List.dedup_sublist rows)
  _ ≤ 90 := hrows

/-- A concrete reading used in counterexamples. -/
def exampleReading : HistoryReading := ⟨0, 70, [], 0, [], none⟩

theorem claim_C9_insert_batching_witness :
    createReadingsBatches [exampleReading] = [1] ∧ syncDedupRowCount [5] ≤ 90 :=
  claim_C9_insert_batching [exampleReading] (by decide) [5] (by decide)

set_option maxRecDepth 10000 in
/-- C9 counterexample: passing 91 readings to the bulk reading insert
produces a single statement carrying 91 rows, which exceeds the claimed
90-row bound. -/
theorem claim_C9_counterexample :
    createReadingsBatches (List.replicate 91 exampleReading) = [91] ∧ 90 < 91 := by decide
